import Mathlib

/-
Verification development for the prolly-tree core of the dolt repository:
a shallow embedding of the tuple builder (go/store/val/tuple_builder.go),
the internal-node meta values, the mutable-map overlay, the three-way-merge
patch stream (prolly package), and the SQL table writer
(go/libraries/doltcore/sqle/dsess/write_session.go), with theorems settling
the specification claims against those embeddings.

Machine integers are modelled as Nat or Int with explicit modular reduction;
byte strings are lists of naturals; fallible operations return Option.
-/

namespace Dolt

/-- Byte strings: a Go byte slice is a list of byte values. -/
abbrev Bytes := List Nat

/-! ## Tuple codec (go/store/val) -/

/-- Field encodings of the val package (the subset the claims exercise). -/
inductive Encoding
  | int8Enc
  | int64Enc
  | stringEnc
  | bytesEnc
deriving DecidableEq

/-- One field descriptor: val.Type is a pair of an Encoding and a Nullable
flag (collations are out of scope here). -/
structure ValType where
  enc : Encoding
  nullable : Bool
deriving DecidableEq

instance : Inhabited ValType := ⟨⟨Encoding.int64Enc, true⟩⟩

/-- val.TupleDesc: an ordered list of field descriptors. -/
structure TupleDesc where
  types : List ValType
deriving DecidableEq

/-- TupleDesc.Count: the number of fields described. -/
def TupleDesc.count (d : TupleDesc) : Nat := d.types.length

/-- Modelled from the spec: a val.Tuple is determined by the list of its
field slices (a nil slice marks a NULL field); val.NewTuple assembles a
tuple whose GetField i yields the i-th value passed in, and the encoded
offset table and null bitmap are abstracted away. -/
abbrev Tuple := List (Option Bytes)

/-- Modelled from the spec: val.NewTuple, at the level of field contents. -/
def NewTuple (values : List (Option Bytes)) : Tuple := values

/-- Modelled from the spec: val.Tuple.GetField returns the i-th field slice
(nil, here the empty byte string, for a NULL field). -/
def Tuple.GetField (t : Tuple) (i : Nat) : Bytes := (t.getD i none).getD []

/-- Little-endian bytes of the low 64 bits of a natural number. -/
def writeUint64LE (u : Nat) : Bytes :=
  [u % 256, u / 256 % 256, u / 65536 % 256, u / 16777216 % 256,
   u / 4294967296 % 256, u / 1099511627776 % 256,
   u / 281474976710656 % 256, u / 72057594037927936 % 256]

/-- val.WriteInt64: the two-complement little-endian encoding of an int64. -/
def WriteInt64 (v : Int) : Bytes := writeUint64LE (v % 18446744073709551616).toNat

/-- val.TupleBuilder: a descriptor, the per-field staged slices (none marks
a field not yet written) and the scratch-buffer position. The fixed scratch
array is abstracted: each staged field holds its bytes directly. -/
structure TupleBuilder where
  desc : TupleDesc
  fields : List (Option Bytes)
  pos : Nat
deriving DecidableEq

/-- val.NewTupleBuilder: a fresh builder with no staged fields. -/
def NewTupleBuilder (desc : TupleDesc) : TupleBuilder :=
  { desc := desc, fields := List.replicate desc.count none, pos := 0 }

/-- val.TupleBuilder.PutInt64: expectEncoding demands an int64 field (the
source panics otherwise, modelled as none), then the encoded value is staged
at index i and the scratch position advances by eight bytes. -/
def TupleBuilder.PutInt64 (tb : TupleBuilder) (i : Nat) (v : Int) :
    Option TupleBuilder :=
  if (tb.desc.types.get? i).map ValType.enc = some Encoding.int64Enc then
    some { tb with fields := tb.fields.set i (some (WriteInt64 v)), pos := tb.pos + 8 }
  else
    none

/-- val.TupleBuilder.Recycle: resets the TupleBuilder so it can build a new
Tuple; the source sets only the scratch position to zero. -/
def TupleBuilder.Recycle (tb : TupleBuilder) : TupleBuilder := { tb with pos := 0 }

/-- val.TupleBuilder.Build: panics (modelled as none) when some non-nullable
field has no staged slice; otherwise assembles the tuple from the first
count staged fields and recycles the builder. -/
def TupleBuilder.Build (tb : TupleBuilder) : Option (Tuple × TupleBuilder) :=
  if (tb.desc.types.zip tb.fields).all (fun p => p.1.nullable || p.2.isSome) then
    some (NewTuple (tb.fields.take tb.desc.count), tb.Recycle)
  else
    none

/-! ## Meta values (prolly internal nodes) -/

/-- Modelled from the spec and the six-byte buffer at the call site:
val.WriteUint48 stores the low 48 bits of the count little-endian in six
bytes. -/
def WriteUint48 (u : Nat) : Bytes :=
  [u % 256, u / 256 % 256, u / 65536 % 256, u / 16777216 % 256,
   u / 4294967296 % 256, u / 1099511627776 % 256]

/-- Modelled from the spec: val.ReadUint48 decodes six little-endian bytes. -/
def ReadUint48 (b : Bytes) : Nat :=
  b.getD 0 0 + 256 * b.getD 1 0 + 65536 * b.getD 2 0 + 16777216 * b.getD 3 0 +
    4294967296 * b.getD 4 0 + 1099511627776 * b.getD 5 0

/-- A 20-byte content hash, modelled as its byte string. -/
abbrev Hash := Bytes

/-- Modelled from the spec: hash.New copies a 20-byte slice into a Hash. -/
def hashNew (ref : Bytes) : Hash := ref

/-- metaValueCountIdx of the source. -/
def metaValueCountIdx : Nat := 0

/-- metaValueRefIdx of the source. -/
def metaValueRefIdx : Nat := 1

/-- newMetaValue: a two-field tuple holding the uint48 cumulative count and
the 20-byte child ref. -/
def newMetaValue (count : Nat) (ref : Hash) : Tuple :=
  NewTuple [some (WriteUint48 count), some ref]

/-- metaValue.GetCumulativeCount: decode the count field. -/
def GetCumulativeCount (mt : Tuple) : Nat :=
  ReadUint48 (mt.GetField metaValueCountIdx)

/-- metaValue.GetRef: the child hash field. -/
def GetRef (mt : Tuple) : Hash :=
  hashNew (mt.GetField metaValueRefIdx)

/-! ## Three-way merge patch stream (prolly tree_merge)

Keys and tuple payloads are abstracted to naturals: compareDiffKeys uses the
key-descriptor comparison, instantiated here with the order on Nat; a Diff
value slice is nil (removed) or a payload. A treeDiffer is a finite sorted
stream of Diffs, modelled as the list of diffs it will produce; Next pops
the head and io.EOF is the exhausted list. The patch buffer is modelled as
the list of patches sent to it, and the loop of sendPatches carries a fuel
counter: a run that exhausts every fuel bound is a non-terminating walk. -/

/-- DiffType of the prolly differ. -/
inductive DiffType
  | added
  | removed
  | modified
deriving DecidableEq

/-- Diff: key, from-value and to-value (none encodes a nil tuple), type. -/
structure Diff where
  key : Nat
  fromVal : Option Nat
  toVal : Option Nat
  dtype : DiffType
deriving DecidableEq

/-- equalDiffVals: types equal and to-values byte-equal. -/
def equalDiffVals (left right : Diff) : Bool :=
  decide (left.dtype = right.dtype) && decide (left.toVal = right.toVal)

/-- patch: the pair (diff.Key, diff.To) that patchBuffer.sendPatch enqueues. -/
abbrev Patch := Nat × Option Nat

/-- patchBuffer.sendPatch builds the patch (diff.Key, diff.To). -/
def sendPatch (diff : Diff) : Patch := (diff.key, diff.toVal)

/-- treeDiffer.Next on a list-modelled stream: the current diff (none for
io.EOF) and the rest of the stream. -/
def differNext : List Diff → Option Diff × List Diff
  | [] => (none, [])
  | d :: ds => (some d, ds)

/-- The drain loop over the right stream after the main walk: each remaining
diff is sent as a patch in stream order. -/
def drainRight : Option Diff → List Diff → List Patch
  | none, _ => []
  | some r, rs => sendPatch r :: rs.map sendPatch

/-- The loop of sendPatches. State: the current left diff and the rest of
the left stream (none = lok is false), likewise for the right, and the
patches sent so far. Returns (terminated, patches sent): when the left is
exhausted the main loop ends and the right remainder is drained; when the
right is exhausted the left remainder is drained as no-ops (the source loop
bodies are a lone break and a comment); otherwise one main-loop iteration
runs, and in the cmp = 0 branch the source advances neither stream. -/
def sendPatchesGo (cb : Diff → Diff → Diff × Bool) :
    Nat → Option Diff → List Diff → Option Diff → List Diff → List Patch →
    Bool × List Patch
  | _, none, _, r, rs, acc => (true, acc ++ drainRight r rs)
  | _, some _, _, none, _, acc => (true, acc)
  | 0, some _, _, some _, _, acc => (false, acc)
  | fuel + 1, some left, ls, some right, rs, acc =>
    if left.key < right.key then
      sendPatchesGo cb fuel (differNext ls).1 (differNext ls).2 (some right) rs acc
    else if right.key < left.key then
      sendPatchesGo cb fuel (some left) ls (differNext rs).1 (differNext rs).2
        (acc ++ [sendPatch right])
    else if equalDiffVals left right then
      sendPatchesGo cb fuel (some left) ls (some right) rs acc
    else
      sendPatchesGo cb fuel (some left) ls (some right) rs
        (if (cb left right).2 then acc ++ [sendPatch (cb left right).1] else acc)

/-- sendPatches on two finite diff streams: prime both currents with Next,
then run the walk with the given fuel bound. -/
def sendPatches (cb : Diff → Diff → Diff × Bool) (fuel : Nat)
    (ld rd : List Diff) : Bool × List Patch :=
  sendPatchesGo cb fuel (differNext ld).1 (differNext ld).2
    (differNext rd).1 (differNext rd).2 []

/-- A resolver that chooses the left diff on conflict. -/
def cbLeft : Diff → Diff → Diff × Bool := fun l _ => (l, true)

/-- Both sides modified key 0 to the same value: the equal, equal-to row of
the merge table. -/
def ldEqual : List Diff := [⟨0, some 1, some 2, DiffType.modified⟩]

/-- The right stream of the equal, equal-to scenario. -/
def rdEqual : List Diff := [⟨0, some 1, some 2, DiffType.modified⟩]

/-- Left modified key 0 to 2: the equal, different-to row of the merge
table. -/
def ldConflict : List Diff := [⟨0, some 1, some 2, DiffType.modified⟩]

/-- Right modified key 0 to 3, conflicting with ldConflict. -/
def rdConflict : List Diff := [⟨0, some 1, some 3, DiffType.modified⟩]

/-! ## Mutable map: overlay, reads and materialization

Key tuples and value tuples are abstracted to naturals; a persistent Map is
its ordered list of key-value pairs and the overlay is the ordered list of
pending edits, an edit value being some v (insert or update) or none (a
tombstone, the nil value tuple of the source). -/

/-- Lookup in an association list, as the skip-list Get: the stored value
and whether the key is present, folded into one Option. -/
def assocLookup {α : Type} : List (Nat × α) → Nat → Option α
  | [], _ => none
  | (k2, v) :: rest, k => if k = k2 then some v else assocLookup rest k

/-- Modelled from the spec: the skip-list overlay Put stages an edit in key
order, replacing any pending edit of the same key. -/
def memoryMapPut (ov : List (Nat × Option Nat)) (k : Nat) (v : Option Nat) :
    List (Nat × Option Nat) :=
  match ov with
  | [] => [(k, v)]
  | (k2, v2) :: rest =>
    if k < k2 then (k, v) :: (k2, v2) :: rest
    else if k2 < k then (k2, v2) :: memoryMapPut rest k v
    else (k, v) :: rest

/-- Modelled from the spec: materializeMutations walks the persistent tree
and the overlay concurrently in ascending key order and feeds a new chunker;
an emitted stream of pairs stands for the resulting map. Smaller cursor key:
emit it and advance the cursor; smaller overlay key: emit the edit unless it
is a tombstone; equal keys: a tombstone skips both, otherwise the overlay
value replaces the pair; then the remaining side drains. -/
def materializeMutations :
    List (Nat × Nat) → List (Nat × Option Nat) → List (Nat × Nat)
  | [], edits => edits.filterMap (fun p => p.2.map (fun v => (p.1, v)))
  | base, [] => base
  | (bk, bv) :: bs, (ek, ev) :: es =>
    if bk < ek then (bk, bv) :: materializeMutations bs ((ek, ev) :: es)
    else if ek < bk then
      match ev with
      | some v => (ek, v) :: materializeMutations ((bk, bv) :: bs) es
      | none => materializeMutations ((bk, bv) :: bs) es
    else
      match ev with
      | some v => (ek, v) :: materializeMutations bs es
      | none => materializeMutations bs es
termination_by base edits => base.length + edits.length

/-- maxPending of the source: the overlay capacity constant. -/
def maxPending : Nat := 64 * 1024

/-- Errors a map operation could surface to its caller. -/
inductive MapError
  | overlayFull
deriving DecidableEq

/-- MutableMap: a base Map and the overlay of pending edits. -/
structure MutableMapModel where
  base : List (Nat × Nat)
  overlay : List (Nat × Option Nat)
deriving DecidableEq

/-- newMutableMap: the given base and an empty overlay. -/
def newMutableMap (base : List (Nat × Nat)) : MutableMapModel :=
  { base := base, overlay := [] }

/-- MutableMap.Put: the source stages the edit in the overlay and returns a
nil error unconditionally; the updated state and the returned error. -/
def MutableMapModel.put (m : MutableMapModel) (k : Nat) (v : Option Nat) :
    MutableMapModel × Option MapError :=
  ({ m with overlay := memoryMapPut m.overlay k v }, none)

/-- MutableMap.Map: materialize the pending mutations over the base. -/
def MutableMapModel.materialize (m : MutableMapModel) : List (Nat × Nat) :=
  materializeMutations m.base m.overlay

/-- Modelled from the spec: Map.Get of the persistent map passes the pair to
the callback when the key is present and a nil pair otherwise. -/
def mapGet {R : Type} (base : List (Nat × Nat)) (k : Nat)
    (cb : Option Nat → Option Nat → R) : R :=
  match assocLookup base k with
  | some v => cb (some k) (some v)
  | none => cb none none

/-- MutableMap.Get: the overlay is consulted first; a hit with a nil value
is a pending delete, so the key passed to the callback is set to nil; a hit
with a value passes the pair through; a miss delegates to the base map. -/
def MutableMapModel.get {R : Type} (m : MutableMapModel) (k : Nat)
    (cb : Option Nat → Option Nat → R) : R :=
  match assocLookup m.overlay k with
  | some value =>
    match value with
    | none => cb none none
    | some v => cb (some k) (some v)
  | none => mapGet m.base k cb

/-- MutableMap.Has: Get with a callback that reports a non-nil key. -/
def MutableMapModel.has (m : MutableMapModel) (k : Nat) : Bool :=
  m.get k (fun key _ => key.isSome)

/-- A mutable map whose overlay already holds maxPending pending edits. -/
def fullMutableMap : MutableMapModel :=
  { base := [], overlay := (List.range maxPending).map (fun i => (i, some 0)) }

/-! ## Table writer (sqle/dsess write_session.go)

Rows and the underlying editors are abstracted: an index.Writer is modelled
by the errors its operations return (none = nil error), and a TableWriter
holds the primary writer, the secondary-index writers and the shared closed
signal. -/

/-- Errors of the write session. -/
inductive WriterError
  | tableEditorWasClosed
  | indexFailure (code : Nat)
deriving DecidableEq

/-- The behavior of one index.Writer: the error each operation returns. -/
structure IndexWriter where
  insertErr : Option WriterError
  deleteErr : Option WriterError
  updateErr : Option WriterError
  discardErr : Option WriterError
  completeErr : Option WriterError
  closeErr : Option WriterError
deriving DecidableEq

/-- TableWriter: primary and secondary writers plus the closed signal. -/
structure TableWriterModel where
  primary : IndexWriter
  indexes : List IndexWriter
  closed : Bool
deriving DecidableEq

/-- TableWriter.checkClosed: an error when the closed signal is set. -/
def TableWriterModel.checkClosed (ed : TableWriterModel) : Option WriterError :=
  if ed.closed then some WriterError.tableEditorWasClosed else none

/-- The first error of a list of results, none when all are nil: the shape
of the dependency loops of Insert, Delete, Update, DiscardChanges and
StatementComplete, which return the first failing call. -/
def firstErr : List (Option WriterError) → Option WriterError
  | [] => none
  | some e :: _ => some e
  | none :: rest => firstErr rest

/-- TableWriter.Insert: checkClosed, then every secondary index, then the
primary writer. -/
def TableWriterModel.insert (ed : TableWriterModel) : Option WriterError :=
  match ed.checkClosed with
  | some e => some e
  | none =>
    match firstErr (ed.indexes.map IndexWriter.insertErr) with
    | some e => some e
    | none => ed.primary.insertErr

/-- TableWriter.Delete: checkClosed, then the dependency loop, then the
primary writer. -/
def TableWriterModel.delete (ed : TableWriterModel) : Option WriterError :=
  match ed.checkClosed with
  | some e => some e
  | none =>
    match firstErr (ed.indexes.map IndexWriter.deleteErr) with
    | some e => some e
    | none => ed.primary.deleteErr

/-- TableWriter.Update: checkClosed, then the dependency loop, then the
primary writer. -/
def TableWriterModel.update (ed : TableWriterModel) : Option WriterError :=
  match ed.checkClosed with
  | some e => some e
  | none =>
    match firstErr (ed.indexes.map IndexWriter.updateErr) with
    | some e => some e
    | none => ed.primary.updateErr

/-- TableWriter.DiscardChanges: checkClosed, then the dependency loop, then
the primary writer. -/
def TableWriterModel.discardChanges (ed : TableWriterModel) : Option WriterError :=
  match ed.checkClosed with
  | some e => some e
  | none =>
    match firstErr (ed.indexes.map IndexWriter.discardErr) with
    | some e => some e
    | none => ed.primary.discardErr

/-- TableWriter.StatementComplete: checkClosed, then the dependency loop,
then the primary writer. -/
def TableWriterModel.statementComplete (ed : TableWriterModel) : Option WriterError :=
  match ed.checkClosed with
  | some e => some e
  | none =>
    match firstErr (ed.indexes.map IndexWriter.completeErr) with
    | some e => some e
    | none => ed.primary.completeErr

/-- TableWriter.Close: the source folds over the secondary writers with
err = nil assigned in the non-nil branch (so err never becomes non-nil),
sets the closed signal and returns err. -/
def TableWriterModel.close (ed : TableWriterModel) :
    TableWriterModel × Option WriterError :=
  let err := ed.indexes.foldl
    (fun e ie => match ie.closeErr with | some _ => none | none => e)
    (none : Option WriterError)
  ({ ed with closed := true }, err)

/-! ## Concrete inputs used by witnesses and counterexamples -/

/-- A concrete 20-byte child hash. -/
def refZero : Hash := List.replicate 20 0

/-- A descriptor with a single non-nullable int64 field. -/
def descNonNull : TupleDesc := ⟨[⟨Encoding.int64Enc, false⟩]⟩

/-- A builder over descNonNull whose only field has been staged. -/
def tbStaged : TupleBuilder :=
  ((NewTupleBuilder descNonNull).PutInt64 0 7).getD (NewTupleBuilder descNonNull)

/-- The builder state returned by a successful Build of tbStaged. -/
def tbAfterBuild : TupleBuilder :=
  (tbStaged.Build.map Prod.snd).getD (NewTupleBuilder descNonNull)

/-- The tuple returned by a successful Build of tbStaged. -/
def tBuilt : Tuple := (tbStaged.Build.map Prod.fst).getD []

/-! ## Helper lemmas -/

theorem readWrite_uint48 (u : Nat) (h : u < 281474976710656) :
    ReadUint48 (WriteUint48 u) = u := by
  simp only [ReadUint48, WriteUint48, List.getD_cons_zero, List.getD_cons_succ]
  omega

theorem closeFold_none (l : List IndexWriter) :
    l.foldl (fun e ie => match ie.closeErr with | some _ => none | none => e)
      (none : Option WriterError) = none := by
  induction l with
  | nil => rfl
  | cons ie rest ih =>
    rw [List.foldl_cons]
    have hstep : (match ie.closeErr with
                  | some _ => (none : Option WriterError)
                  | none => none) = none := by
      cases ie.closeErr <;> rfl
    rw [hstep]
    exact ih

theorem sendPatchesGo_stuck (cb : Diff → Diff → Diff × Bool) :
    ∀ (fuel : Nat) (l : Diff) (ls : List Diff) (r : Diff) (rs : List Diff)
      (acc : List Patch), l.key = r.key → equalDiffVals l r = true →
      sendPatchesGo cb fuel (some l) ls (some r) rs acc = (false, acc) := by
  intro fuel
  induction fuel with
  | zero =>
    intro l ls r rs acc hk hv
    simp [sendPatchesGo]
  | succ n ih =>
    intro l ls r rs acc hk hv
    simp only [sendPatchesGo]
    rw [if_neg (by omega), if_neg (by omega), if_pos hv]
    exact ih l ls r rs acc hk hv

theorem sendPatchesGo_conflict (cb : Diff → Diff → Diff × Bool)
    (l r res : Diff) (hk : l.key = r.key) (hv : equalDiffVals l r = false)
    (hcb : cb l r = (res, true)) :
    ∀ (fuel : Nat) (ls rs : List Diff) (acc : List Patch),
      sendPatchesGo cb fuel (some l) ls (some r) rs acc =
        (false, acc ++ List.replicate fuel (sendPatch res)) := by
  intro fuel
  induction fuel with
  | zero =>
    intro ls rs acc
    simp [sendPatchesGo]
  | succ n ih =>
    intro ls rs acc
    simp only [sendPatchesGo]
    rw [if_neg (by omega), if_neg (by omega), if_neg (by simp [hv]), hcb]
    rw [if_pos rfl]
    rw [ih ls rs (acc ++ [sendPatch res])]
    simp [List.replicate_succ, List.append_assoc]

theorem assocLookup_none_of (l : List (Nat × Nat)) (k : Nat)
    (h : ∀ p ∈ l, k ≠ p.1) : assocLookup l k = none := by
  induction l with
  | nil => rfl
  | cons hd tl ih =>
    obtain ⟨k2, v2⟩ := hd
    have hk2 : k ≠ k2 := h (k2, v2) (List.mem_cons_self _ _)
    simp only [assocLookup, if_neg hk2]
    exact ih (fun p hp => h p (List.mem_cons_of_mem _ hp))

theorem mat_nil_edits (base : List (Nat × Nat)) :
    materializeMutations base [] = base := by
  cases base with
  | nil => simp [materializeMutations]
  | cons b bs => simp [materializeMutations]

theorem mat_insert (k v : Nat) :
    ∀ (base : List (Nat × Nat)), List.Pairwise (fun a b => a.1 < b.1) base →
      assocLookup (materializeMutations base [(k, some v)]) k = some v ∧
      (materializeMutations base [(k, some v)]).length =
        base.length + (if (assocLookup base k).isSome then 0 else 1) := by
  intro base
  induction base with
  | nil =>
    intro _
    simp [materializeMutations, assocLookup]
  | cons hd tl ih =>
    obtain ⟨bk, bv⟩ := hd
    intro hp
    rw [List.pairwise_cons] at hp
    obtain ⟨hhd, htl⟩ := hp
    obtain ⟨ih1, ih2⟩ := ih htl
    rcases Nat.lt_trichotomy bk k with hlt | heq | hgt
    · have hstep : materializeMutations ((bk, bv) :: tl) [(k, some v)] =
          (bk, bv) :: materializeMutations tl [(k, some v)] := by
        simp only [materializeMutations]
        rw [if_pos hlt]
      rw [hstep]
      constructor
      · simp only [assocLookup, if_neg (by omega : ¬ k = bk)]
        exact ih1
      · have hlk : assocLookup ((bk, bv) :: tl) k = assocLookup tl k := by
          simp only [assocLookup, if_neg (by omega : ¬ k = bk)]
        rw [List.length_cons, hlk, ih2]
        cases assocLookup tl k <;> simp
    · have hstep : materializeMutations ((bk, bv) :: tl) [(k, some v)] =
          (k, v) :: tl := by
        simp only [materializeMutations]
        rw [if_neg (by omega), if_neg (by omega)]
        simp only [mat_nil_edits]
      rw [hstep]
      constructor
      · simp [assocLookup]
      · simp [List.length_cons, assocLookup, heq]
    · have hstep : materializeMutations ((bk, bv) :: tl) [(k, some v)] =
          (k, v) :: (bk, bv) :: tl := by
        simp only [materializeMutations]
        rw [if_neg (by omega), if_pos hgt]
      rw [hstep]
      have habs : assocLookup tl k = none :=
        assocLookup_none_of tl k (fun p hp => by have := hhd p hp; omega)
      constructor
      · simp [assocLookup]
      · simp [List.length_cons, assocLookup, if_neg (by omega : ¬ k = bk), habs]

theorem mat_tombstone (k : Nat) :
    ∀ (base : List (Nat × Nat)), List.Pairwise (fun a b => a.1 < b.1) base →
      assocLookup (materializeMutations base [(k, none)]) k = none ∧
      (materializeMutations base [(k, none)]).length =
        base.length - (if (assocLookup base k).isSome then 1 else 0) := by
  intro base
  induction base with
  | nil =>
    intro _
    simp [materializeMutations, assocLookup]
  | cons hd tl ih =>
    obtain ⟨bk, bv⟩ := hd
    intro hp
    rw [List.pairwise_cons] at hp
    obtain ⟨hhd, htl⟩ := hp
    obtain ⟨ih1, ih2⟩ := ih htl
    rcases Nat.lt_trichotomy bk k with hlt | heq | hgt
    · have hstep : materializeMutations ((bk, bv) :: tl) [(k, none)] =
          (bk, bv) :: materializeMutations tl [(k, none)] := by
        simp only [materializeMutations]
        rw [if_pos hlt]
      rw [hstep]
      constructor
      · simp only [assocLookup, if_neg (by omega : ¬ k = bk)]
        exact ih1
      · have hlk : assocLookup ((bk, bv) :: tl) k = assocLookup tl k := by
          simp only [assocLookup, if_neg (by omega : ¬ k = bk)]
        rcases htl2 : assocLookup tl k with _ | w
        · rw [htl2] at ih2
          simp only [Option.isSome_none, Bool.false_eq_true, if_false, Nat.sub_zero] at ih2
          have hlkc : assocLookup ((bk, bv) :: tl) k = none := by rw [hlk, htl2]
          simp only [List.length_cons, ih2, hlkc, Option.isSome_none,
            Bool.false_eq_true, if_false, Nat.sub_zero]
        · rw [htl2] at ih2
          simp only [Option.isSome_some, if_true] at ih2
          have hlen : 1 ≤ tl.length := by
            cases tl with
            | nil => simp [assocLookup] at htl2
            | cons a b => simp
          have hlkc : assocLookup ((bk, bv) :: tl) k = some w := by rw [hlk, htl2]
          simp only [List.length_cons, ih2, hlkc, Option.isSome_some, if_true]
          omega
    · have hstep : materializeMutations ((bk, bv) :: tl) [(k, none)] = tl := by
        simp only [materializeMutations]
        rw [if_neg (by omega), if_neg (by omega)]
        simp only [mat_nil_edits]
      rw [hstep]
      have habs : assocLookup tl k = none :=
        assocLookup_none_of tl k (fun p hp => by have := hhd p hp; omega)
      constructor
      · exact habs
      · simp [List.length_cons, assocLookup, heq]
    · have hstep : materializeMutations ((bk, bv) :: tl) [(k, none)] =
          (bk, bv) :: tl := by
        simp only [materializeMutations]
        rw [if_neg (by omega), if_pos hgt]
      rw [hstep]
      have habs : assocLookup tl k = none :=
        assocLookup_none_of tl k (fun p hp => by have := hhd p hp; omega)
      constructor
      · simp only [assocLookup, if_neg (by omega : ¬ k = bk)]
        exact habs
      · simp [List.length_cons, assocLookup, if_neg (by omega : ¬ k = bk), habs]

theorem assocLookup_memoryMapPut (ov : List (Nat × Option Nat)) (k : Nat)
    (v : Option Nat) : assocLookup (memoryMapPut ov k v) k = some v := by
  induction ov with
  | nil => simp [memoryMapPut, assocLookup]
  | cons hd rest ih =>
    obtain ⟨k2, v2⟩ := hd
    by_cases h1 : k < k2
    · simp [memoryMapPut, h1, assocLookup]
    · by_cases h2 : k2 < k
      · have hne : ¬ k = k2 := by omega
        simp [memoryMapPut, h1, h2, assocLookup, hne, ih]
      · have heq : k = k2 := by omega
        simp [memoryMapPut, h1, h2, assocLookup, heq]

theorem allCheck_iff : ∀ (ts : List ValType) (fs : List (Option Bytes)),
    ts.length ≤ fs.length →
    (((ts.zip fs).all (fun p => p.1.nullable || p.2.isSome)) = true ↔
      ∀ i, i < ts.length →
        ((ts.getD i default).nullable = false → (fs.getD i none).isSome = true)) := by
  intro ts
  induction ts with
  | nil =>
    intro fs _
    simp
  | cons t ts2 ih =>
    intro fs h
    cases fs with
    | nil => simp at h
    | cons f fs2 =>
      have h2 : ts2.length ≤ fs2.length := by
        simpa using h
      rw [List.zip_cons_cons, List.all_cons]
      constructor
      · intro hall i hi hnn
        rw [Bool.and_eq_true] at hall
        obtain ⟨hhead, hrest⟩ := hall
        cases i with
        | zero =>
          simp only [List.getD_cons_zero] at hnn ⊢
          rw [hnn] at hhead
          simpa using hhead
        | succ n =>
          have hn : n < ts2.length := by
            simpa [Nat.succ_lt_succ_iff] using hi
          have := (ih fs2 h2).mp hrest n hn
          simp only [List.getD_cons_succ] at hnn ⊢
          exact this hnn
      · intro hholds
        rw [Bool.and_eq_true]
        constructor
        · cases hn : t.nullable
          · have := hholds 0 (by simp) (by simpa using hn)
            simpa using this
          · simp
        · exact (ih fs2 h2).mpr (fun i hi hnn =>
            hholds (i + 1) (by simpa [Nat.succ_lt_succ_iff] using hi)
              (by simpa using hnn))

/-! ## Claim theorems -/

/-- C1 (code bug, evaluated at the failing input): when the left and the
right stream each hold a diff for the same key with equal to values (the
no-op row of the merge table), sendPatches advances neither stream in the
cmp = 0 branch, so the walk reports non-termination for every fuel bound:
the claimed termination of the merge walk fails on the code. -/
theorem sendPatches_equal_key_diverges :
    ∀ fuel : Nat, (sendPatches cbLeft fuel ldEqual rdEqual).1 = false := by
  intro fuel
  have h := sendPatchesGo_stuck cbLeft fuel
    ⟨0, some 1, some 2, DiffType.modified⟩ []
    ⟨0, some 1, some 2, DiffType.modified⟩ [] [] rfl (by decide)
  show (sendPatchesGo cbLeft fuel (some ⟨0, some 1, some 2, DiffType.modified⟩) []
      (some ⟨0, some 1, some 2, DiffType.modified⟩) [] []).1 = false
  rw [h]

/-- C2 (code bug, evaluated at the failing input): on a key modified on both
sides to different values, the resolver is invoked once per loop iteration
and the resolved patch is sent each time, while neither stream advances: the
walk never terminates, the resolved diff is applied arbitrarily many times
rather than once, and a not-ok resolution records nothing. -/
theorem sendPatches_conflict_diverges :
    ∀ fuel : Nat, sendPatches cbLeft fuel ldConflict rdConflict =
      (false, List.replicate fuel ((0 : Nat), some (2 : Nat))) := by
  intro fuel
  have h := sendPatchesGo_conflict cbLeft
    ⟨0, some 1, some 2, DiffType.modified⟩
    ⟨0, some 1, some 3, DiffType.modified⟩
    ⟨0, some 1, some 2, DiffType.modified⟩ rfl (by decide) rfl fuel [] [] []
  show sendPatchesGo cbLeft fuel (some ⟨0, some 1, some 2, DiffType.modified⟩) []
      (some ⟨0, some 1, some 3, DiffType.modified⟩) [] [] =
      (false, List.replicate fuel ((0 : Nat), some (2 : Nat)))
  rw [h]
  simp [sendPatch]

/-- C3: materializing a fresh mutable map over a sorted base after one put
yields a map whose lookup at the key returns the value put, and whose pair
count is the base count plus one for an insert of an absent key, unchanged
for an update of a present key, the base count minus one for a tombstone on
a present key and unchanged for a tombstone on an absent key. -/
theorem mutableMap_put_materialize (base : List (Nat × Nat)) (k v : Nat)
    (hs : List.Pairwise (fun a b => a.1 < b.1) base) :
    (assocLookup (((newMutableMap base).put k (some v)).1.materialize) k = some v ∧
      (((newMutableMap base).put k (some v)).1.materialize).length =
        base.length + (if (assocLookup base k).isSome then 0 else 1)) ∧
    (assocLookup (((newMutableMap base).put k none).1.materialize) k = none ∧
      (((newMutableMap base).put k none).1.materialize).length =
        base.length - (if (assocLookup base k).isSome then 1 else 0)) := by
  have h1 : ((newMutableMap base).put k (some v)).1.materialize =
      materializeMutations base [(k, some v)] := rfl
  have h2 : ((newMutableMap base).put k none).1.materialize =
      materializeMutations base [(k, none)] := rfl
  rw [h1, h2]
  exact ⟨mat_insert k v base hs, mat_tombstone k base hs⟩

/-- Witness for C3 at a concrete sorted base with the key present. -/
theorem mutableMap_put_materialize_witness :
    (assocLookup (((newMutableMap [(1, 10), (3, 30)]).put 3 (some 99)).1.materialize) 3 =
        some (99 : Nat) ∧
      (((newMutableMap [(1, 10), (3, 30)]).put 3 (some 99)).1.materialize).length =
        [(1, 10), (3, 30)].length + (if (assocLookup [(1, 10), (3, 30)] 3).isSome then 0 else 1)) ∧
    (assocLookup (((newMutableMap [(1, 10), (3, 30)]).put 3 none).1.materialize) 3 = none ∧
      (((newMutableMap [(1, 10), (3, 30)]).put 3 none).1.materialize).length =
        [(1, 10), (3, 30)].length - (if (assocLookup [(1, 10), (3, 30)] 3).isSome then 1 else 0)) :=
  mutableMap_put_materialize [(1, 10), (3, 30)] 3 99 (by decide)

/-- C4: Get and Has answer from the overlay without consulting the base
map: a tombstone entry makes Has false and Get pass a nil pair to the
callback whatever the base holds, a value entry is passed through as-is,
and only an overlay miss delegates to the base map. -/
theorem mutableMap_get_overlay_first (m : MutableMapModel) (k : Nat) :
    (assocLookup m.overlay k = some none →
      m.has k = false ∧
      ∀ (R : Type) (cb : Option Nat → Option Nat → R), m.get k cb = cb none none) ∧
    (∀ v, assocLookup m.overlay k = some (some v) →
      m.has k = true ∧
      ∀ (R : Type) (cb : Option Nat → Option Nat → R),
        m.get k cb = cb (some k) (some v)) ∧
    (assocLookup m.overlay k = none →
      ∀ (R : Type) (cb : Option Nat → Option Nat → R),
        m.get k cb = mapGet m.base k cb) := by
  refine ⟨?_, ?_, ?_⟩
  · intro h
    constructor
    · show m.get k (fun key _ => key.isSome) = false
      unfold MutableMapModel.get
      rw [h]
      rfl
    · intro R cb
      unfold MutableMapModel.get
      rw [h]
  · intro v h
    constructor
    · show m.get k (fun key _ => key.isSome) = true
      unfold MutableMapModel.get
      rw [h]
      rfl
    · intro R cb
      unfold MutableMapModel.get
      rw [h]
  · intro h R cb
    unfold MutableMapModel.get
    rw [h]

/-- Witness for C4: a tombstone over a key the base map holds, and a value
entry, at a concrete mutable map. -/
theorem mutableMap_get_overlay_first_witness :
    MutableMapModel.has ⟨[(1, 9)], [(1, none), (2, some 5)]⟩ 1 = false ∧
    MutableMapModel.has ⟨[(1, 9)], [(1, none), (2, some 5)]⟩ 2 = true :=
  ⟨((mutableMap_get_overlay_first ⟨[(1, 9)], [(1, none), (2, some 5)]⟩ 1).1
      (by decide)).1,
   (((mutableMap_get_overlay_first ⟨[(1, 9)], [(1, none), (2, some 5)]⟩ 2).2.1) 5
      (by decide)).1⟩

/-- C5: Build constructs a tuple exactly when every non-nullable field of
the descriptor has been populated; when some non-nullable field is absent,
Build fails and no tuple escapes. -/
theorem build_iff_populated (tb : TupleBuilder)
    (h : tb.desc.count ≤ tb.fields.length) :
    (tb.Build).isSome = true ↔
      ∀ i, i < tb.desc.count →
        ((tb.desc.types.getD i default).nullable = false →
          (tb.fields.getD i none).isSome = true) := by
  have hb : (tb.Build).isSome =
      ((tb.desc.types.zip tb.fields).all (fun p => p.1.nullable || p.2.isSome)) := by
    unfold TupleBuilder.Build
    split <;> simp_all
  rw [hb]
  exact allCheck_iff tb.desc.types tb.fields h

/-- Witness for C5 at a concrete builder whose one non-nullable field has
been staged. -/
theorem build_iff_populated_witness :
    (tbStaged.Build).isSome = true ↔
      ∀ i, i < tbStaged.desc.count →
        ((tbStaged.desc.types.getD i default).nullable = false →
          (tbStaged.fields.getD i none).isSome = true) :=
  build_iff_populated tbStaged (by decide)

/-- C6 counterexample: over a descriptor with a non-nullable field, after a
successful Build a second Build with no intervening Put succeeds and the
staged field slices are retained, refuting the claim that it fails as on a
fresh builder. -/
theorem build_reset_counterexample :
    (tbStaged.Build).isSome = true ∧
    (tbAfterBuild.Build).isSome = true ∧
    descNonNull.types.all (fun t => !t.nullable) = true ∧
    tbAfterBuild.fields = tbStaged.fields := by
  decide

/-- C6 amended: Build resets only the scratch position (Recycle sets pos to
zero) and retains the staged field slices, so a subsequent Build with no
intervening Put succeeds and returns the same tuple and the same builder
state rather than failing. -/
theorem build_recycle_retains_fields (tb : TupleBuilder) (t : Tuple)
    (tb2 : TupleBuilder) (h : tb.Build = some (t, tb2)) :
    tb2.fields = tb.fields ∧ tb2.pos = 0 ∧ tb2.desc = tb.desc ∧
    tb2.Build = some (t, tb2) := by
  obtain ⟨d, fs, p⟩ := tb
  unfold TupleBuilder.Build at h
  by_cases hc : ((d.types.zip fs).all (fun q => q.1.nullable || q.2.isSome)) = true
  · rw [if_pos hc] at h
    cases Option.some.inj h
    refine ⟨rfl, rfl, rfl, ?_⟩
    have hfinal : TupleBuilder.Build ⟨d, fs, 0⟩ =
        if ((d.types.zip fs).all (fun q => q.1.nullable || q.2.isSome)) then
          some (NewTuple (List.take d.count fs), (⟨d, fs, 0⟩ : TupleBuilder))
        else none := rfl
    show TupleBuilder.Build ⟨d, fs, 0⟩ =
      some (NewTuple (List.take d.count fs), (⟨d, fs, 0⟩ : TupleBuilder))
    rw [hfinal, if_pos hc]
  · rw [if_neg hc] at h
    exact absurd h (by simp)

/-- Witness for C6 amended at the concrete staged builder. -/
theorem build_recycle_retains_fields_witness :
    tbAfterBuild.fields = tbStaged.fields ∧ tbAfterBuild.pos = 0 ∧
    tbAfterBuild.desc = tbStaged.desc ∧
    tbAfterBuild.Build = some (tBuilt, tbAfterBuild) :=
  build_recycle_retains_fields tbStaged tBuilt tbAfterBuild (by decide)

/-- C7 counterexample: with the overlay already holding maxPending pending
edits, Put accepts one more edit and returns a nil error: no overlay-full
error is surfaced. -/
theorem overlayFull_counterexample :
    fullMutableMap.overlay.length = maxPending ∧
    (fullMutableMap.put maxPending (some 1)).2 = none ∧
    assocLookup (fullMutableMap.put maxPending (some 1)).1.overlay maxPending =
      some (some 1) := by
  refine ⟨?_, rfl, ?_⟩
  · simp [fullMutableMap]
  · have hov : ∀ (mm : MutableMapModel) (k2 : Nat) (v2 : Option Nat),
        (mm.put k2 v2).1.overlay = memoryMapPut mm.overlay k2 v2 :=
      fun _ _ _ => rfl
    rw [hov]
    exact assocLookup_memoryMapPut fullMutableMap.overlay maxPending (some 1)

/-- C7 amended: the constant maxPending bounds nothing in Put: MutableMap
Put stages the edit and returns a nil error regardless of how many edits
are pending, so no overlay-full error is ever surfaced by Put. -/
theorem put_never_errors (m : MutableMapModel) (k : Nat) (v : Option Nat) :
    (m.put k v).2 = none ∧ assocLookup (m.put k v).1.overlay k = some v :=
  ⟨rfl, assocLookup_memoryMapPut m.overlay k v⟩

/-- C8 counterexample: at subtree count 2^48 the decoded cumulative count
of the meta value is 0, not the count passed to newMetaValue. -/
theorem metaValue_counterexample :
    GetCumulativeCount (newMetaValue 281474976710656 refZero) ≠ 281474976710656 := by
  decide

/-- C8 amended: for every subtree count below 2^48 (the six-byte field) and
every 20-byte child hash, GetCumulativeCount of the meta value returns the
count and GetRef returns the ref. -/
theorem metaValue_roundtrip (count : Nat) (ref : Hash)
    (hc : count < 281474976710656) (hr : ref.length = 20) :
    GetCumulativeCount (newMetaValue count ref) = count ∧
    GetRef (newMetaValue count ref) = ref := by
  constructor
  · have hfield : (newMetaValue count ref).GetField metaValueCountIdx =
        WriteUint48 count := rfl
    show ReadUint48 ((newMetaValue count ref).GetField metaValueCountIdx) = count
    rw [hfield]
    exact readWrite_uint48 count hc
  · rfl

/-- Witness for C8 amended at a small count and the zero hash. -/
theorem metaValue_roundtrip_witness :
    GetCumulativeCount (newMetaValue 7 refZero) = 7 ∧
    GetRef (newMetaValue 7 refZero) = refZero :=
  metaValue_roundtrip 7 refZero (by omega) (by decide)

/-- C9: after the main walk, every diff remaining in the right stream is
applied as the patch (key, to) in stream order, and the left remainder
produces no patch: with the left stream exhausted the output is exactly the
right stream mapped to patches, and with the right stream exhausted the
output is empty. -/
theorem sendPatches_drain (cb : Diff → Diff → Diff × Bool) (fuel : Nat)
    (ld rd : List Diff) :
    sendPatches cb fuel [] rd = (true, rd.map (fun d => (d.key, d.toVal))) ∧
    sendPatches cb fuel ld [] = (true, []) := by
  constructor
  · cases rd with
    | nil => simp [sendPatches, differNext, sendPatchesGo, drainRight]
    | cons d ds =>
      simp [sendPatches, differNext, sendPatchesGo, drainRight, sendPatch]
  · cases ld with
    | nil => simp [sendPatches, differNext, sendPatchesGo, drainRight]
    | cons l ls => simp [sendPatches, differNext, sendPatchesGo]

/-- C10: TableWriter.Close always returns a nil error, discarding any error
from closing a secondary-index writer, while still marking the writer
closed, so every subsequent Insert, Delete, Update, DiscardChanges or
StatementComplete returns the table-editor-was-closed error. -/
theorem tableWriter_close_nil_then_closed (ed : TableWriterModel) :
    (ed.close).2 = none ∧ (ed.close).1.closed = true ∧
    (ed.close).1.insert = some WriterError.tableEditorWasClosed ∧
    (ed.close).1.delete = some WriterError.tableEditorWasClosed ∧
    (ed.close).1.update = some WriterError.tableEditorWasClosed ∧
    (ed.close).1.discardChanges = some WriterError.tableEditorWasClosed ∧
    (ed.close).1.statementComplete = some WriterError.tableEditorWasClosed := by
  refine ⟨?_, rfl, rfl, rfl, rfl, rfl, rfl⟩
  show ed.indexes.foldl
    (fun e ie => match ie.closeErr with | some _ => none | none => e) none = none
  exact closeFold_none ed.indexes

end Dolt
